import Mathlib

/-!
Verification development for the fliqr repository
(src/fliq_match_result_watcher.py and src/fliq_match_result_cron.py).

The two Python files implement the same core: a market normalizer
(filter + grouping), a snapshot reconciler (carry-over of
first_detected_at, fresh timestamps for new keys, removal logging) and a
periodic validator.  The definitions below are a shallow embedding of
that core; each definition cites the source function it translates.

Modelling conventions:
- Python dicts are association lists `List (String × _)` with dict
  semantics (`alookup` returns the value of the first matching key;
  `setKey` updates in place, preserving insertion order, appending new
  keys at the end) — real dicts never hold duplicate keys.
- JSON values read from the API are modelled with `Option String` /
  `Option Bool` (absent / null ↦ `none`; numeric JSON values are
  modelled as their decimal strings, which `int()` parses identically).
- Python string truthiness (`x or ""`, `if not x`) is modelled by
  explicit emptiness tests; unicode case folding and `\s` are modelled
  over their ASCII fragment.
-/

namespace Fliqr

/-! ## Character classes and list-of-char utilities -/

/-- Lower-case ASCII alphanumeric: the character class `[a-z0-9]` of the
regexes in `slugify` (watcher line 75, cron line 60). -/
def isLowerAlnum (c : Char) : Bool :=
  (('a' ≤ c) && (c ≤ 'z')) || (('0' ≤ c) && (c ≤ '9'))

/-- The ASCII fragment of Python's whitespace class `\s`
(space, tab, newline, carriage return, vertical tab, form feed). -/
def isPySpace (c : Char) : Bool :=
  (c == ' ') || (c == '\t') || (c == '\n') || (c == '\r') ||
  (c == '\x0b') || (c == '\x0c')

/-- Drop the longest suffix of characters satisfying `p`. -/
def rdropWhile (p : Char → Bool) (l : List Char) : List Char :=
  (l.reverse.dropWhile p).reverse

/-- Strip characters satisfying `p` from both ends: Python `str.strip`. -/
def stripBoth (p : Char → Bool) (l : List Char) : List Char :=
  rdropWhile p (l.dropWhile p)

/-- Replace every maximal run of characters satisfying `p` by the single
character `sep`; the boolean flag records whether we are currently inside
a run whose separator has already been emitted (or suppressed). -/
def squashAux (p : Char → Bool) (sep : Char) : Bool → List Char → List Char
  | _, [] => []
  | inRun, c :: rest =>
    if p c then
      if inRun then squashAux p sep true rest
      else sep :: squashAux p sep true rest
    else c :: squashAux p sep false rest

/-- Model of `re.sub` on runs: each maximal `p`-run becomes one `sep`. -/
def squashRuns (p : Char → Bool) (sep : Char) (l : List Char) : List Char :=
  squashAux p sep false l

/-! ## slugify

From `slugify` (watcher lines 72-78) and the identical `slugify_header`
(cron lines 57-63):

    s = (text or "").lower().strip()
    s = s.replace(":", " ")
    s = re.sub(r"[^a-z0-9\s]", " ", s)
    s = re.sub(r"\s+", "-", s)
    s = re.sub(r"-+", "-", s)
    return s.strip("-")
-/

def slugify (text : String) : String :=
  let l0 := text.data.map Char.toLower
  let l1 := stripBoth isPySpace l0
  let l2 := l1.map (fun c => if c == ':' then ' ' else c)
  let l3 := l2.map (fun c => if isLowerAlnum c || isPySpace c then c else ' ')
  let l4 := squashRuns isPySpace '-' l3
  let l5 := squashRuns (fun c => c == '-') '-' l4
  ⟨stripBoth (fun c => c == '-') l5⟩

/-- Modelled from the spec's words (for comparison with `slugify`): the
lowercase form with every character other than lowercase alphanumerics
replaced by a hyphen, runs of hyphens collapsed, and leading/trailing
hyphens trimmed. -/
def slugSpecDescription (text : String) : String :=
  let l0 := text.data.map Char.toLower
  let l1 := l0.map (fun c => if isLowerAlnum c then c else '-')
  let l2 := squashRuns (fun c => c == '-') '-' l1
  ⟨stripBoth (fun c => c == '-') l2⟩

/-! ## Substring search (Python `in` on strings) -/

/-- Test whether `n` is an initial segment of `h`. -/
def listLeads : List Char → List Char → Bool
  | [], _ => true
  | _ :: _, [] => false
  | a :: as, b :: bs => (a == b) && listLeads as bs

/-- Test whether `needle` occurs contiguously inside the second list
(Python `n in h` for strings). -/
def containsSub (needle : List Char) : List Char → Bool
  | [] => needle.isEmpty
  | c :: rest => listLeads needle (c :: rest) || containsSub needle rest

/-- Python `needle in hay` on strings. -/
def strContainsSub (hay needle : String) : Bool :=
  containsSub needle.data hay.data

/-! ## Python scalar helpers -/

/-- Python `str.lower()` (ASCII fragment), written over the character
list so that it evaluates by kernel reduction. -/
def strToLower (s : String) : String := ⟨s.data.map Char.toLower⟩

/-- Python `str.strip()` (no argument): whitespace removed from both
ends, written over the character list. -/
def pyStrip (s : String) : String := ⟨stripBoth isPySpace s.data⟩

/-- Python `int()` applied to a string: surrounding whitespace allowed,
optional sign, then at least one decimal digit; anything else raises
(modelled as `none`). -/
def pyInt (s : String) : Option Int :=
  let t := (stripBoth isPySpace s.data)
  let core : Option (List Char × Bool) :=
    match t with
    | '+' :: ds => some (ds, false)
    | '-' :: ds => some (ds, true)
    | ds => some (ds, false)
  match core with
  | none => none
  | some (ds, neg) =>
    if ds.isEmpty then none
    else if ds.all Char.isDigit then
      let n : Nat := ds.foldl (fun acc c => acc * 10 + (c.toNat - '0'.toNat)) 0
      some (if neg then -(n : Int) else (n : Int))
    else none

/-- Model of `int(bm.get("questionEndTime") or 0)` with the surrounding
`try/except` (watcher lines 169-172 and 186-189, cron lines 143-146 and
168-171): a missing/empty value falls back to `0`; a non-numeric value
raises, modelled as `none`. -/
def endTimeParse : Option String → Option Int
  | none => some 0
  | some s => if s = "" then some 0 else pyInt s

/-- Python `x or d` for an optional string `x` (empty string is falsy). -/
def pyOrStr : Option String → String → String
  | none, d => d
  | some s, d => if s = "" then d else s

/-- Python truthiness of an optional string (`bool(x)`). -/
def optTruthy : Option String → Bool
  | none => false
  | some s => s ≠ ""

/-- Python `str(x)` for an optional string (`str(None) = "None"`). -/
def strOfOpt : Option String → String
  | none => "None"
  | some s => s

/-! ## Data model

`RawOption` is one element of the `questions` array returned by the API,
restricted to the fields the core reads (watcher lines 155-211, cron
lines 129-193). -/

structure RawOption where
  questionId : Option String
  yesTokenMarketId : Option String
  noTokenMarketId : Option String
  isSettled : Option Bool
  category : Option String
  questionHeader : Option String
  parentQuestionHeader : Option String
  questionHeaderExpanded : Option String
  parentQuestionId : Option String
  questionEndTime : Option String
deriving DecidableEq, Repr

/-- One option dict as stored in a group's `options` list
(watcher lines 203-209, cron lines 185-191). -/
structure MarketOption where
  questionId : String
  title : String
  yesTokenMarketId : String
  noTokenMarketId : String
  option_is_tradable : Bool
deriving DecidableEq, Repr

/-- One group record of the snapshot (watcher lines 191-199, cron lines
173-181).  `first_detected_at = none` models the dict simply not having
that key; `questionEndTime = none` models Python `None`. -/
structure MarketGroup where
  match_header : String
  slug : String
  multi_question_id : String
  options : List MarketOption
  questionEndTime : Option Int
  questionEndTime_iso : String
  is_approved : Bool
  first_detected_at : Option String
deriving DecidableEq, Repr

/-- A snapshot: a Python dict from group key to group record, modelled
as an insertion-ordered association list. -/
def Snapshot : Type := List (String × MarketGroup)

instance : DecidableEq Snapshot := by unfold Snapshot; infer_instance

instance : Membership (String × MarketGroup) Snapshot := by
  unfold Snapshot; infer_instance

/-- Dict lookup: value of the first (only, in a real dict) entry with
the given key. -/
def alookup (k : String) : Snapshot → Option MarketGroup
  | [] => none
  | (k2, v) :: rest => if k2 = k then some v else alookup k rest

/-- Dict assignment `d[k] = v`: update in place if the key exists,
otherwise append at the end (Python insertion order). -/
def setKey (k : String) (v : MarketGroup) : Snapshot → Snapshot
  | [] => [(k, v)]
  | (k2, v2) :: rest =>
    if k2 = k then (k, v) :: rest else (k2, v2) :: setKey k v rest

/-- The keys of a snapshot in insertion order. -/
def akeys (s : Snapshot) : List String := s.map Prod.fst

/-! ## Timestamp formatting

`utc_iso_from_unix` (watcher lines 64-70) / `unix_to_iso` (cron lines
51-55) format an epoch to ISO-8601 UTC; `now_iso` (watcher lines 60-62,
cron lines 48-49) formats the current time as `%Y-%m-%d %H:%M:%S`.
The Gregorian conversion below is the standard civil-from-days
computation the Python `datetime` library performs. -/

/-- Two-digit zero padding. -/
def pad2 (n : Nat) : String :=
  if n < 10 then "0" ++ toString n else toString n

/-- Civil date (year, month, day) from days since 1970-01-01. -/
def civilFromDays (z0 : Int) : Int × Int × Int :=
  let z := z0 + 719468
  let era := (if 0 ≤ z then z else z - 146096) / 146097
  let doe := z - era * 146097
  let yoe := (doe - doe / 1460 + doe / 36524 - doe / 146096) / 365
  let y := yoe + era * 400
  let doy := doe - (365 * yoe + yoe / 4 - yoe / 100)
  let mp := (5 * doy + 2) / 153
  let d := doy - (153 * mp + 2) / 5 + 1
  let m := if mp < 10 then mp + 3 else mp - 9
  (if m ≤ 2 then y + 1 else y, m, d)

/-- Compute the `(Y, M, D, h, m, s)` UTC fields of an epoch timestamp. -/
def utcFields (ts : Int) : Int × Int × Int × Nat × Nat × Nat :=
  let days := ts / 86400
  let secs := (ts % 86400).toNat
  let c := civilFromDays days
  (c.1, c.2.1, c.2.2, secs / 3600, secs % 3600 / 60, secs % 60)

/-- Model of `datetime.fromtimestamp(ts, tz=utc).isoformat().replace("+00:00", "Z")`. -/
def isoOfEpoch (ts : Int) : String :=
  let f := utcFields ts
  toString f.1 ++ "-" ++ pad2 f.2.1.toNat ++ "-" ++ pad2 f.2.2.1.toNat ++
    "T" ++ pad2 f.2.2.2.1 ++ ":" ++ pad2 f.2.2.2.2.1 ++ ":" ++
    pad2 f.2.2.2.2.2 ++ "Z"

/-- Model of `utc_iso_from_unix` (watcher lines 64-70): falsy input (absent or
`0`) yields `""`. -/
def utc_iso_from_unix : Option Int → String
  | none => ""
  | some ts => if ts = 0 then "" else isoOfEpoch ts

/-- Model of `now_iso` (watcher lines 60-62, cron lines 48-49): the current time
formatted `"%Y-%m-%d %H:%M:%S"`; modelled as a function of the epoch
second at which it is called. -/
def now_iso (ts : Int) : String :=
  let f := utcFields ts
  toString f.1 ++ "-" ++ pad2 f.2.1.toNat ++ "-" ++ pad2 f.2.2.1.toNat ++
    " " ++ pad2 f.2.2.2.1 ++ ":" ++ pad2 f.2.2.2.2.1 ++ ":" ++
    pad2 f.2.2.2.2.2

/-! ## Market Normalizer: filter

`is_upcoming_match_option` (watcher lines 155-173), identical to
`looks_like_upcoming_match` (cron lines 129-148).  `now` is the ambient
`datetime.now(timezone.utc).timestamp()` made explicit. -/

def is_upcoming_match_option (q : RawOption) (now : Int) : Bool :=
  let category := strToLower (pyOrStr q.category (""))
  let headers := strToLower ((strOfOpt (some (pyOrStr q.questionHeader ("")))) ++
      " " ++ (strOfOpt (some (pyOrStr q.parentQuestionHeader ("")))) ++
      " " ++ (strOfOpt (some (pyOrStr q.questionHeaderExpanded ("")))))
  if category ≠ "football" then false
  else if !(strContainsSub headers ("match result")) then false
  else if q.isSettled = some true then false
  else
    match endTimeParse q.questionEndTime with
    | none => false
    | some endTs => decide (endTs > now)

/-! ## Market Normalizer: grouping

`build_live_snapshot` (watcher lines 175-214), identical to
`build_current_matches_snapshot` (cron lines 157-196). -/

/-- The group key a qualifying record is filed under, or `none` when the
record is dropped (`if not parent_header or not parent_id: continue`,
watcher lines 181-185). -/
def groupKeyOf (q : RawOption) : Option String :=
  let ph := pyOrStr q.parentQuestionHeader ("")
  if ph = "" then none
  else
    match q.parentQuestionId with
    | none => none
    | some pid => if pid = "" then none else some (pyStrip ph)

/-- Model of `tradable = bool(yes) and bool(no) and str(yes) != "0" and
str(no) != "0"` (watcher line 202, cron line 184). -/
def tradableOf (q : RawOption) : Bool :=
  optTruthy q.yesTokenMarketId && optTruthy q.noTokenMarketId &&
    (strOfOpt q.yesTokenMarketId ≠ "0") && (strOfOpt q.noTokenMarketId ≠ "0")

/-- The option dict appended for one qualifying record
(watcher lines 203-209, cron lines 185-191). -/
def optionOf (q : RawOption) : MarketOption :=
  { questionId := strOfOpt q.questionId
    title := pyStrip (pyOrStr q.questionHeaderExpanded (pyOrStr q.questionHeader ("")))
    yesTokenMarketId := if optTruthy q.yesTokenMarketId then strOfOpt q.yesTokenMarketId else ""
    noTokenMarketId := if optTruthy q.noTokenMarketId then strOfOpt q.noTokenMarketId else ""
    option_is_tradable := tradableOf q }

/-- The freshly initialised group for the first qualifying record of a
key (watcher lines 190-199, cron lines 172-181). -/
def initGroup (q : RawOption) : MarketGroup :=
  let endTs := endTimeParse q.questionEndTime
  { match_header := pyOrStr q.parentQuestionHeader ("")
    slug := slugify (pyOrStr q.parentQuestionHeader (""))
    multi_question_id := strOfOpt q.parentQuestionId
    options := []
    questionEndTime := endTs
    questionEndTime_iso :=
      match endTs with
      | none => ""
      | some n => if n = 0 then "" else utc_iso_from_unix (some n)
    is_approved := false
    first_detected_at := none }

/-- Process one candidate record: group creation, option append,
approval update (the body of the `for q in candidates` loop, watcher
lines 179-211, cron lines 161-193). -/
def addCandidate (groups : Snapshot) (q : RawOption) : Snapshot :=
  match groupKeyOf q with
  | none => groups
  | some key =>
    let g0 := match alookup key groups with
      | some g => g
      | none => initGroup q
    let tr := tradableOf q
    let g1 := { g0 with
      options := g0.options ++ [optionOf q]
      is_approved := if tr then true else g0.is_approved }
    setKey key g1 groups

/-- The grouping fold over all candidates. -/
def buildGroups (candidates : List RawOption) : Snapshot :=
  candidates.foldl addCandidate []

/-- Model of `build_live_snapshot` / `build_current_matches_snapshot`: filter the
raw records, group them, then apply the `require_approved` post-filter
(watcher lines 175-214, cron lines 157-196).  `raw` is the fetched
`questions` list and `now` the ambient current time, both explicit. -/
def build_live_snapshot (raw : List RawOption) (now : Int)
    (require_approved : Bool) : Snapshot :=
  let candidates := raw.filter (fun q => is_upcoming_match_option q now)
  let groups := buildGroups candidates
  if require_approved then groups.filter (fun kv => kv.2.is_approved) else groups

/-! ## Reconciler

The diff-and-merge step shared by `run_once` (cron lines 223-239) and
`watcher_loop` (watcher lines 349-362):

    new_keys = sorted(list(current_keys - saved_keys))
    removed_keys = sorted(list(saved_keys - current_keys))
    for k in current_keys:
        if k in saved and "first_detected_at" in saved[k]:
            current[k]["first_detected_at"] = saved[k]["first_detected_at"]
    now_str = now_iso()
    for k in new_keys:
        current[k]["first_detected_at"] = now_str
-/

/-- Insertion into a lexicographically sorted list of keys. -/
def insertSorted (x : String) : List String → List String
  | [] => [x]
  | y :: rest => if x < y then x :: y :: rest else y :: insertSorted x rest

/-- Model of `sorted(...)` on a list of keys. -/
def sortKeys (l : List String) : List String :=
  l.foldr insertSorted []

/-- Model of `sorted(list(current_keys - saved_keys))`. -/
def newKeys (saved current : Snapshot) : List String :=
  sortKeys ((akeys current).filter (fun k => (alookup k saved).isNone))

/-- Model of `sorted(list(saved_keys - current_keys))`. -/
def removedKeys (saved current : Snapshot) : List String :=
  sortKeys ((akeys saved).filter (fun k => (alookup k current).isNone))

/-- The merged record for key `k` whose fresh record is `g`: carry the
old `first_detected_at` over when the old record has one; assign the
fresh timestamp `nowStr` exactly on the new-key path. -/
def mergedGroup (saved : Snapshot) (nowStr : String) (k : String)
    (g : MarketGroup) : MarketGroup :=
  match alookup k saved with
  | some old =>
    match old.first_detected_at with
    | some t => { g with first_detected_at := some t }
    | none => g
  | none => { g with first_detected_at := some nowStr }

/-- The merged snapshot the cycle persists (`current` after both loops,
saved by `save_matches(current)` / `save_snapshot(current)`). -/
def reconcileMerged (saved current : Snapshot) (nowStr : String) : Snapshot :=
  current.map (fun kv => (kv.1, mergedGroup saved nowStr kv.1 kv.2))

/-! ## Removal logging

Cron path (`run_once` lines 258-264 with `append_removed_log`, cron
lines 90-96): one line per removed key, embedding `json.dumps` of the
old record.  The JSON dump below lists the record's fields in dict
insertion order; string escaping is not modelled. -/

/-- A JSON string literal (escaping not modelled). -/
def jstr (s : String) : String := "\"" ++ s ++ "\""

/-- Model of `json.dumps` of a Python bool. -/
def jbool (b : Bool) : String := if b then "true" else "false"

/-- Model of `json.dumps` of one option dict. -/
def dumpOption (o : MarketOption) : String :=
  "\x7b" ++ jstr ("questionId") ++ ": " ++ jstr o.questionId ++ ", " ++
    jstr ("title") ++ ": " ++ jstr o.title ++ ", " ++
    jstr ("yesTokenMarketId") ++ ": " ++ jstr o.yesTokenMarketId ++ ", " ++
    jstr ("noTokenMarketId") ++ ": " ++ jstr o.noTokenMarketId ++ ", " ++
    jstr ("option_is_tradable") ++ ": " ++ jbool o.option_is_tradable ++ "\x7d"

/-- Model of `json.dumps` of a group record: every stored field, in insertion
order, `first_detected_at` included exactly when the record has it. -/
def dumpGroup (g : MarketGroup) : String :=
  "\x7b" ++ jstr ("match_header") ++ ": " ++ jstr g.match_header ++ ", " ++
    jstr ("slug") ++ ": " ++ jstr g.slug ++ ", " ++
    jstr ("multi_question_id") ++ ": " ++ jstr g.multi_question_id ++ ", " ++
    jstr ("options") ++ ": [" ++
      String.intercalate (", ") (g.options.map dumpOption) ++ "], " ++
    jstr ("questionEndTime") ++ ": " ++
      (match g.questionEndTime with
       | none => "null"
       | some n => toString n) ++ ", " ++
    jstr ("questionEndTime_iso") ++ ": " ++ jstr g.questionEndTime_iso ++ ", " ++
    jstr ("is_approved") ++ ": " ++ jbool g.is_approved ++
    (match g.first_detected_at with
     | none => ""
     | some t => ", " ++ jstr ("first_detected_at") ++ ": " ++ jstr t) ++ "\x7d"

/-- Model of the dict `get` with default used by `json.dumps(saved.get(k, ...))`. -/
def dumpGroupOpt : Option MarketGroup → String
  | none => "\x7b\x7d"
  | some g => dumpGroup g

/-- The removal-log line the cron writes for key `k`
(`append_removed_log(f"Removed: {k} data={json.dumps(saved.get(k, {}), ...)}")`,
cron line 262). -/
def cronRemovedLine (saved : Snapshot) (k : String) : String :=
  "Removed: " ++ k ++ " data=" ++ dumpGroupOpt (alookup k saved)

/-- All removal-log lines of one cron run (`run_once` lines 258-264),
one per removed key, in sorted key order. -/
def cronRemovedLogLines (saved current : Snapshot) : List String :=
  (removedKeys saved current).map (cronRemovedLine saved)

/-! ## Periodic Validator

`validate_snapshot` (watcher lines 219-269).  The fresh fetch
(`build_live_snapshot`) may raise; its outcome is the explicit
`fetch : Except String Snapshot` argument.  `json.dumps(..., sort_keys=True)`
equality of two options lists is structural equality of the lists
(the option dicts all carry the same five keys with scalar values). -/

/-- Field reconciliation of one surviving key: returns the (possibly
overwritten) stored record and the `changed` flag (watcher lines
234-249). -/
def reconcileSavedInfo (s l : MarketGroup) : MarketGroup × Bool :=
  let s1c1 : MarketGroup × Bool :=
    if s.questionEndTime = l.questionEndTime then (s, false)
    else ({ s with questionEndTime := l.questionEndTime
                   questionEndTime_iso := l.questionEndTime_iso }, true)
  let s2c2 : MarketGroup × Bool :=
    if s1c1.1.options = l.options then s1c1
    else ({ s1c1.1 with options := l.options }, true)
  if s2c2.1.is_approved = l.is_approved then s2c2
  else ({ s2c2.1 with is_approved := l.is_approved }, true)

/-- Model of the `for key in list(saved.keys())` loop (watcher lines 229-249):
returns the surviving entries (reconciled in place, insertion order
kept), the removal entries `(key, reason)` and the updated keys, both in
iteration order. -/
def validateEntries (live : Snapshot) :
    Snapshot → Snapshot × List (String × String) × List String
  | [] => ([], [], [])
  | (k, s) :: rest =>
    let acc := validateEntries live rest
    match alookup k live with
    | none => (acc.1, (k, "no longer approved/present") :: acc.2.1, acc.2.2)
    | some l =>
      let rc := reconcileSavedInfo s l
      ((k, rc.1) :: acc.1, acc.2.1,
        if rc.2 then k :: acc.2.2 else acc.2.2)

/-- The validator's report: removal entries (fed to
`append_removed_log`, watcher lines 107-113 and 250-251), updated keys,
and the surfaced fetch failure, if any. -/
structure ValidationReport where
  removed : List (String × String)
  updated : List String
  fetchError : Option String
deriving DecidableEq, Repr

/-- Model of `validate_snapshot` (watcher lines 219-269): empty saved snapshot
short-circuits; a failed fetch is logged and the original `saved` is
returned; otherwise every saved key is reconciled against the fresh
snapshot. -/
def validate_snapshot (saved : Snapshot) (fetch : Except String Snapshot) :
    Snapshot × ValidationReport :=
  match saved with
  | [] => ([], { removed := [], updated := [], fetchError := none })
  | _ :: _ =>
    match fetch with
    | Except.error e =>
      (saved, { removed := [], updated := [], fetchError := some e })
    | Except.ok live =>
      let r := validateEntries live saved
      (r.1, { removed := r.2.1, updated := r.2.2, fetchError := none })

/-- The removal-log lines the validator appends (watcher lines
107-113): `f"{now_iso()} | REMOVED | {header} | reason={reason}"`. -/
def watcherRemovedLogLines (nowStr : String)
    (entries : List (String × String)) : List String :=
  entries.map (fun e => nowStr ++ " | REMOVED | " ++ e.1 ++ " | reason=" ++ e.2)

/-! ## Sample data used by the concrete witnesses -/

/-- A stored group carrying a `first_detected_at` timestamp. -/
def gOld : MarketGroup :=
  { match_header := "Alpha vs Beta"
    slug := "alpha-vs-beta"
    multi_question_id := "7"
    options := [{ questionId := "11", title := "Alpha", yesTokenMarketId := "1",
                  noTokenMarketId := "2", option_is_tradable := true }]
    questionEndTime := some 100
    questionEndTime_iso := "1970-01-01T00:01:40Z"
    is_approved := true
    first_detected_at := some ("2024-01-01 00:00:00") }

/-- A freshly normalized group (no `first_detected_at` yet). -/
def gFresh : MarketGroup :=
  { gOld with
    questionEndTime := some 200
    questionEndTime_iso := "1970-01-01T00:03:20Z"
    first_detected_at := none }

/-- A stored group that lacks `first_detected_at`. -/
def gNoStamp : MarketGroup := { gOld with first_detected_at := none }

/-! ## Lemmas about snapshot lookup and the reconciler -/

theorem alookup_reconcileMerged (current saved : Snapshot) (nowStr k : String) :
    alookup k (reconcileMerged saved current nowStr) =
      (alookup k current).map (mergedGroup saved nowStr k) := by
  induction current with
  | nil => rfl
  | cons kv rest ih =>
    obtain ⟨k2, v⟩ := kv
    show alookup k ((k2, mergedGroup saved nowStr k2 v) ::
        reconcileMerged saved rest nowStr) = _
    by_cases h : k2 = k
    · subst h
      simp [alookup]
    · simp [alookup, h, ih]

theorem alookup_isSome_of_mem_akeys (k : String) (l : Snapshot)
    (h : k ∈ akeys l) : (alookup k l).isSome = true := by
  induction l with
  | nil => simp [akeys] at h
  | cons kv rest ih =>
    obtain ⟨k2, v⟩ := kv
    by_cases hk : k2 = k
    · simp [alookup, hk]
    · have h2 : k = k2 ∨ k ∈ akeys rest := List.mem_cons.mp h
      have h3 : k ∈ akeys rest := by
        rcases h2 with h2 | h2
        · exact absurd h2.symm hk
        · exact h2
      simp [alookup, hk, ih h3]

theorem alookup_mem (k : String) (v : MarketGroup) :
    ∀ l : Snapshot, alookup k l = some v → (k, v) ∈ l := by
  intro l
  induction l with
  | nil => intro h; simp [alookup] at h
  | cons kv rest ih =>
    obtain ⟨k2, v2⟩ := kv
    intro h
    by_cases hk : k2 = k
    · subst hk
      simp [alookup] at h
      subst h
      exact List.mem_cons_self _ _
    · simp [alookup, hk] at h
      exact List.mem_cons_of_mem _ (ih h)

/-! ## C6: reconciling a snapshot against itself -/

/-- C6: for every snapshot `S`, reconciling `S` against itself yields an
empty set of new keys and an empty set of removed keys: the key diffs
`sorted(current_keys - saved_keys)` and `sorted(saved_keys - current_keys)`
computed by `run_once` (cron lines 223-227) and `watcher_loop` (watcher
lines 349-356) are both empty when both snapshots are `S`. -/
theorem C6_reconcile_self_empty (S : Snapshot) :
    newKeys S S = [] ∧ removedKeys S S = [] := by
  have hfilter : (akeys S).filter (fun k => (alookup k S).isNone) = [] := by
    rw [List.filter_eq_nil_iff]
    intro k hk
    simp [Option.isNone, alookup_isSome_of_mem_akeys k S hk]
    cases h : alookup k S with
    | none =>
      have := alookup_isSome_of_mem_akeys k S hk
      rw [h] at this
      simp at this
    | some v => simp
  constructor
  · show sortKeys ((akeys S).filter (fun k => (alookup k S).isNone)) = []
    rw [hfilter]
    rfl
  · show sortKeys ((akeys S).filter (fun k => (alookup k S).isNone)) = []
    rw [hfilter]
    rfl

/-! ## C1: timestamp immutability for surviving keys -/

/-- C1: for every old snapshot `saved` and new snapshot `current`, and
every key present in both, the merged snapshot has `first_detected_at`
equal to the old record's whenever the old record carries that field:
the carry-over loop (cron lines 229-232, watcher lines 352-355) copies
it verbatim and the fresh-timestamp loop never touches surviving keys. -/
theorem C1_timestamp_immutability (saved current : Snapshot)
    (nowStr k : String) (old g' : MarketGroup) (t : String)
    (hold : alookup k saved = some old)
    (ht : old.first_detected_at = some t)
    (hm : alookup k (reconcileMerged saved current nowStr) = some g') :
    g'.first_detected_at = some t := by
  rw [alookup_reconcileMerged] at hm
  cases hcur : alookup k current with
  | none => rw [hcur] at hm; simp at hm
  | some g =>
    rw [hcur] at hm
    simp at hm
    rw [← hm]
    simp [mergedGroup, hold, ht]

theorem C1_witness :
    alookup ("Alpha vs Beta")
        [(("Alpha vs Beta"), gOld)] = some gOld ∧
      gOld.first_detected_at = some ("2024-01-01 00:00:00") ∧
      (mergedGroup [(("Alpha vs Beta"), gOld)] ("2024-06-01 09:00:00")
          ("Alpha vs Beta") gFresh).first_detected_at =
        some ("2024-01-01 00:00:00") := by
  refine ⟨by decide, by decide, ?_⟩
  exact C1_timestamp_immutability [(("Alpha vs Beta"), gOld)]
    [(("Alpha vs Beta"), gFresh)] ("2024-06-01 09:00:00") ("Alpha vs Beta")
    gOld _ ("2024-01-01 00:00:00") (by decide) (by decide) (by decide)

/-! ## C3: new-key origination -/

theorem string_data_append (a b : String) : (a ++ b).data = a.data ++ b.data :=
  rfl

theorem now_iso_ne_empty (t : Int) : now_iso t ≠ "" := by
  intro h
  have hd : (now_iso t).data = ([] : List Char) := congrArg String.data h
  simp only [now_iso, string_data_append, List.append_eq_nil] at hd
  simp at hd

/-- C3: for every reconciliation whose current time is `t` (the string
timestamp `now_iso t` the code computes once per cycle, cron line 234,
watcher line 357), every key absent from the old snapshot gets
`first_detected_at = now_iso t` in the merged snapshot (cron lines
234-239, watcher lines 356-362); that value is never the empty string;
and for keys surviving from the old snapshot the merged timestamp is
either the carried-over old one or the fresh snapshot's own field — the
new-key path is the only one that originates a value. -/
theorem C3_new_key_origination :
    (∀ (saved current : Snapshot) (t : Int) (k : String) (g' : MarketGroup),
      alookup k saved = none →
      alookup k (reconcileMerged saved current (now_iso t)) = some g' →
      g'.first_detected_at = some (now_iso t)) ∧
    (∀ t : Int, now_iso t ≠ "") ∧
    (∀ (saved current : Snapshot) (nowStr k : String)
      (old g g' : MarketGroup),
      alookup k saved = some old → alookup k current = some g →
      alookup k (reconcileMerged saved current nowStr) = some g' →
      g'.first_detected_at =
        (match old.first_detected_at with
         | some u => some u
         | none => g.first_detected_at)) := by
  refine ⟨?_, now_iso_ne_empty, ?_⟩
  · intro saved current t k g' habs hm
    rw [alookup_reconcileMerged] at hm
    cases hcur : alookup k current with
    | none => rw [hcur] at hm; simp at hm
    | some g =>
      rw [hcur] at hm
      simp at hm
      rw [← hm]
      simp [mergedGroup, habs]
  · intro saved current nowStr k old g g' hold hcur hm
    rw [alookup_reconcileMerged, hcur] at hm
    simp at hm
    rw [← hm]
    cases ht : old.first_detected_at with
    | none => simp [mergedGroup, hold, ht]
    | some u => simp [mergedGroup, hold, ht]

theorem C3_witness :
    alookup ("Alpha vs Beta") ([] : Snapshot) = none ∧
      (mergedGroup ([] : Snapshot) (now_iso 1714564800) ("Alpha vs Beta")
          gFresh).first_detected_at = some (now_iso 1714564800) := by
  refine ⟨rfl, ?_⟩
  exact (C3_new_key_origination.1) ([] : Snapshot)
    [(("Alpha vs Beta"), gFresh)] 1714564800 ("Alpha vs Beta") _
    (by rfl) (by decide)

/-! ## C9: validator fetch failure -/

/-- C9: if the periodic validator's fresh fetch fails
(`build_live_snapshot` raises, watcher lines 222-226), `validate_snapshot`
returns the saved snapshot unmodified — no key removed, no field
overwritten — and the failure is surfaced in the report (the caught
exception that is logged) rather than raised. -/
theorem C9_fetch_failure_returns_saved (saved : Snapshot) (e : String) :
    (validate_snapshot saved (Except.error e)).1 = saved ∧
    (saved ≠ [] →
      (validate_snapshot saved (Except.error e)).2 =
        { removed := [], updated := [], fetchError := some e }) := by
  cases saved with
  | nil => exact ⟨rfl, fun h => absurd rfl h⟩
  | cons kv rest => exact ⟨rfl, fun _ => rfl⟩

theorem C9_witness :
    (validate_snapshot [(("Alpha vs Beta"), gOld)]
        (Except.error ("boom"))).1 = [(("Alpha vs Beta"), gOld)] ∧
    (validate_snapshot [(("Alpha vs Beta"), gOld)]
        (Except.error ("boom"))).2 =
      { removed := [], updated := [], fetchError := some ("boom") } :=
  ⟨(C9_fetch_failure_returns_saved [(("Alpha vs Beta"), gOld)] ("boom")).1,
   (C9_fetch_failure_returns_saved [(("Alpha vs Beta"), gOld)] ("boom")).2
     (by simp)⟩

/-! ## C10: the first_detected_at gap is never repaired for survivors -/

theorem mem_setKey (k : String) (v : MarketGroup) :
    ∀ (l : Snapshot) (kv : String × MarketGroup),
      kv ∈ setKey k v l → kv = (k, v) ∨ kv ∈ l := by
  intro l
  induction l with
  | nil =>
    intro kv h
    exact Or.inl (List.mem_singleton.mp h)
  | cons hd rest ih =>
    obtain ⟨k2, v2⟩ := hd
    intro kv h
    by_cases hk : k2 = k
    · simp only [setKey, if_pos hk] at h
      rcases List.mem_cons.mp h with h | h
      · exact Or.inl h
      · exact Or.inr (List.mem_cons_of_mem _ h)
    · simp only [setKey, if_neg hk] at h
      rcases List.mem_cons.mp h with h | h
      · exact Or.inr (h ▸ List.mem_cons_self _ _)
      · rcases ih kv h with h2 | h2
        · exact Or.inl h2
        · exact Or.inr (List.mem_cons_of_mem _ h2)

theorem addCandidate_first_none (groups : Snapshot) (q : RawOption)
    (hinv : ∀ kv ∈ groups, (kv.2 : MarketGroup).first_detected_at = none) :
    ∀ kv ∈ addCandidate groups q,
      (kv.2 : MarketGroup).first_detected_at = none := by
  intro kv hkv
  unfold addCandidate at hkv
  cases hkey : groupKeyOf q with
  | none => rw [hkey] at hkv; exact hinv kv hkv
  | some key =>
    rw [hkey] at hkv
    simp only at hkv
    rcases mem_setKey key _ groups kv hkv with h | h
    · rw [h]
      cases hg : alookup key groups with
      | none => simp [hg, initGroup]
      | some g0 =>
        simp only [hg]
        exact hinv (key, g0) (alookup_mem key g0 groups hg)
    · exact hinv kv h

theorem buildGroups_first_none (candidates : List RawOption) :
    ∀ kv ∈ buildGroups candidates,
      (kv.2 : MarketGroup).first_detected_at = none := by
  unfold buildGroups
  have main : ∀ (l : List RawOption) (groups : Snapshot),
      (∀ kv ∈ groups, (kv.2 : MarketGroup).first_detected_at = none) →
      ∀ kv ∈ l.foldl addCandidate groups,
        (kv.2 : MarketGroup).first_detected_at = none := by
    intro l
    induction l with
    | nil => intro groups hinv kv hkv; exact hinv kv hkv
    | cons q rest ih =>
      intro groups hinv kv hkv
      exact ih (addCandidate groups q)
        (addCandidate_first_none groups q hinv) kv hkv
  exact main candidates [] (fun kv h => absurd h (List.not_mem_nil kv))

theorem build_live_snapshot_first_none (raw : List RawOption) (now : Int)
    (ra : Bool) (k : String) (g : MarketGroup)
    (h : alookup k (build_live_snapshot raw now ra) = some g) :
    g.first_detected_at = none := by
  have hmem := alookup_mem k g _ h
  have hdef : build_live_snapshot raw now ra =
      (if ra = true then
        (buildGroups (raw.filter (fun q => is_upcoming_match_option q now))).filter
          (fun kv => kv.2.is_approved)
      else buildGroups (raw.filter (fun q => is_upcoming_match_option q now))) :=
    rfl
  rw [hdef] at hmem
  by_cases hra : ra = true
  · rw [if_pos hra] at hmem
    exact buildGroups_first_none _ (k, g) (List.mem_of_mem_filter hmem)
  · rw [if_neg hra] at hmem
    exact buildGroups_first_none _ (k, g) hmem

/-- C10: if a key is present in both snapshots but the old record lacks
`first_detected_at`, the merged record for that key is the fresh record
itself — the carry-over loop skips it (`"first_detected_at" in saved[k]`
is false, cron line 231, watcher line 354) and the fresh-timestamp loop
only covers keys absent from the old snapshot (cron lines 237-239,
watcher lines 360-362); since freshly built snapshots never carry
`first_detected_at` (second conjunct), the merged record carries none
at all. -/
theorem C10_missing_stamp_not_repaired :
    (∀ (saved current : Snapshot) (nowStr k : String)
      (old g : MarketGroup),
      alookup k saved = some old → old.first_detected_at = none →
      alookup k current = some g →
      alookup k (reconcileMerged saved current nowStr) = some g) ∧
    (∀ (raw : List RawOption) (now : Int) (ra : Bool) (k : String)
      (g : MarketGroup),
      alookup k (build_live_snapshot raw now ra) = some g →
      g.first_detected_at = none) := by
  refine ⟨?_, build_live_snapshot_first_none⟩
  intro saved current nowStr k old g hold hnone hcur
  rw [alookup_reconcileMerged, hcur]
  simp [mergedGroup, hold, hnone]

theorem C10_witness :
    alookup ("Alpha vs Beta") [(("Alpha vs Beta"), gNoStamp)] =
        some gNoStamp ∧
      gNoStamp.first_detected_at = none ∧
      gFresh.first_detected_at = none ∧
      alookup ("Alpha vs Beta")
        (reconcileMerged [(("Alpha vs Beta"), gNoStamp)]
          [(("Alpha vs Beta"), gFresh)] ("2024-06-01 09:00:00")) =
        some gFresh :=
  ⟨by decide, by decide, by decide,
   (C10_missing_stamp_not_repaired.1) [(("Alpha vs Beta"), gNoStamp)]
     [(("Alpha vs Beta"), gFresh)] ("2024-06-01 09:00:00") ("Alpha vs Beta")
     gNoStamp gFresh (by decide) (by decide) (by decide)⟩

/-! ## C4: the normalizer's filter -/

/-- The headers string the filter searches: the space-join of the three
header fields, lower-cased (watcher lines 158-162, cron lines 132-136). -/
def joinedHeaders (q : RawOption) : String :=
  strToLower ((pyOrStr q.questionHeader ("")) ++ " " ++
    (pyOrStr q.parentQuestionHeader ("")) ++ " " ++
    (pyOrStr q.questionHeaderExpanded ("")))

theorem is_upcoming_iff (q : RawOption) (now : Int) :
    is_upcoming_match_option q now = true ↔
      (strToLower (pyOrStr q.category ("")) = "football" ∧
       strContainsSub (joinedHeaders q) ("match result") = true ∧
       q.isSettled ≠ some true ∧
       ∃ n : Int, endTimeParse q.questionEndTime = some n ∧ now < n) := by
  have hdef : is_upcoming_match_option q now =
      (if strToLower (pyOrStr q.category ("")) ≠ "football" then false
       else if !(strContainsSub (joinedHeaders q) ("match result")) then false
       else if q.isSettled = some true then false
       else
         match endTimeParse q.questionEndTime with
         | none => false
         | some endTs => decide (endTs > now)) := rfl
  rw [hdef]
  by_cases h1 : strToLower (pyOrStr q.category ("")) = "football"
  · rw [if_neg (fun hne => hne h1)]
    by_cases h2 : strContainsSub (joinedHeaders q) ("match result") = true
    · rw [if_neg (by simp [h2])]
      by_cases h3 : q.isSettled = some true
      · rw [if_pos h3]
        simp [h3]
      · rw [if_neg h3]
        cases hp : endTimeParse q.questionEndTime with
        | none => simp [h1, h2, h3, hp]
        | some n =>
          simp only [hp]
          simp [h1, h2, h3]
    · have h2f : strContainsSub (joinedHeaders q) ("match result") = false :=
        Bool.eq_false_iff.mpr h2
      rw [if_pos (by rw [h2f]; rfl)]
      simp [h2f]
  · rw [if_pos h1]
    simp [h1]

/-- C4: a raw record passes the normalizer's filter
(`is_upcoming_match_option`, watcher lines 155-173; identical
`looks_like_upcoming_match`, cron lines 129-148) iff its category is
"football" case-insensitively, the (space-joined) concatenation of its
three header fields contains "match result" case-insensitively, its
settlement flag is not `True`, and its end-time value parses as an
integer strictly greater than the current UTC epoch time; in particular
a "basketball" record is always excluded, a record whose end time is at
or before the current time is excluded, and a record with a non-numeric
end time is excluded. -/
theorem C4_filter_characterisation :
    (∀ (q : RawOption) (now : Int),
      is_upcoming_match_option q now = true ↔
        (strToLower (pyOrStr q.category ("")) = "football" ∧
         strContainsSub (joinedHeaders q) ("match result") = true ∧
         q.isSettled ≠ some true ∧
         ∃ n : Int, endTimeParse q.questionEndTime = some n ∧ now < n)) ∧
    (∀ (q : RawOption) (now : Int), q.category = some ("basketball") →
      is_upcoming_match_option q now = false) ∧
    (∀ (q : RawOption) (now n : Int),
      endTimeParse q.questionEndTime = some n → n ≤ now →
      is_upcoming_match_option q now = false) ∧
    (∀ (q : RawOption) (now : Int),
      endTimeParse q.questionEndTime = none →
      is_upcoming_match_option q now = false) := by
  refine ⟨is_upcoming_iff, ?_, ?_, ?_⟩
  · intro q now hcat
    cases hb : is_upcoming_match_option q now
    · rfl
    · obtain ⟨h1, -, -, -⟩ := (is_upcoming_iff q now).mp hb
      rw [hcat] at h1
      exact absurd h1 (by decide)
  · intro q now n hp hle
    cases hb : is_upcoming_match_option q now
    · rfl
    · obtain ⟨-, -, -, m, hm, hlt⟩ := (is_upcoming_iff q now).mp hb
      rw [hp] at hm
      cases hm
      exact absurd hlt (not_lt.mpr hle)
  · intro q now hp
    cases hb : is_upcoming_match_option q now
    · rfl
    · obtain ⟨-, -, -, m, hm, -⟩ := (is_upcoming_iff q now).mp hb
      rw [hp] at hm
      exact Option.noConfusion hm

/-- A record that passes the filter at `now = 5`. -/
def qGood : RawOption :=
  { questionId := some ("1")
    yesTokenMarketId := some ("5")
    noTokenMarketId := some ("6")
    isSettled := some false
    category := some ("Football")
    questionHeader := some ("Match Result")
    parentQuestionHeader := some ("Alpha vs Beta")
    questionHeaderExpanded := some ("Alpha wins")
    parentQuestionId := some ("77")
    questionEndTime := some ("10") }

def qBasket : RawOption := { qGood with category := some ("basketball") }

def qPast : RawOption := { qGood with questionEndTime := some ("3") }

def qNonNumeric : RawOption := { qGood with questionEndTime := some ("abc") }

theorem C4_witness :
    is_upcoming_match_option qGood 5 = true ∧
    is_upcoming_match_option qBasket 5 = false ∧
    is_upcoming_match_option qPast 5 = false ∧
    is_upcoming_match_option qNonNumeric 5 = false :=
  ⟨(C4_filter_characterisation.1 qGood 5).mpr
      ⟨by decide, by decide, by decide, 10, by decide, by decide⟩,
   C4_filter_characterisation.2.1 qBasket 5 (by decide),
   C4_filter_characterisation.2.2.1 qPast 5 3 (by decide) (by decide),
   C4_filter_characterisation.2.2.2 qNonNumeric 5 (by decide)⟩

/-! ## C5: approval monotonicity within one normalization pass -/

theorem alookup_setKey_self (k : String) (v : MarketGroup) :
    ∀ l : Snapshot, alookup k (setKey k v l) = some v := by
  intro l
  induction l with
  | nil => simp [setKey, alookup]
  | cons hd rest ih =>
    obtain ⟨k2, v2⟩ := hd
    by_cases hk : k2 = k
    · simp [setKey, hk, alookup]
    · simp [setKey, hk, alookup, ih]

theorem alookup_setKey_ne (k k2 : String) (v : MarketGroup)
    (hne : k ≠ k2) : ∀ l : Snapshot, alookup k2 (setKey k v l) = alookup k2 l := by
  intro l
  induction l with
  | nil => simp [setKey, alookup, hne]
  | cons hd rest ih =>
    obtain ⟨k3, v3⟩ := hd
    by_cases hk : k3 = k
    · subst hk
      simp [setKey, alookup, hne, ih]
    · simp only [setKey, if_neg hk]
      by_cases hk2 : k3 = k2
      · simp [alookup, hk2]
      · simp [alookup, hk2, ih]

theorem addCandidate_approved_mono (groups : Snapshot) (q : RawOption)
    (k : String) (g : MarketGroup)
    (h : alookup k groups = some g) (ha : g.is_approved = true) :
    ∃ g2, alookup k (addCandidate groups q) = some g2 ∧
      g2.is_approved = true := by
  unfold addCandidate
  cases hkey : groupKeyOf q with
  | none => exact ⟨g, h, ha⟩
  | some key =>
    by_cases hk : key = k
    · subst hk
      refine ⟨_, alookup_setKey_self _ _ _, ?_⟩
      rw [h]
      cases htr : tradableOf q
      · simpa [htr] using ha
      · simp [htr]
    · refine ⟨g, ?_, ha⟩
      rw [alookup_setKey_ne key k _ hk]
      exact h

theorem addCandidate_sets_approved (groups : Snapshot) (q : RawOption)
    (k : String) (hkey : groupKeyOf q = some k)
    (htr : tradableOf q = true) :
    ∃ g, alookup k (addCandidate groups q) = some g ∧
      g.is_approved = true := by
  unfold addCandidate
  rw [hkey]
  refine ⟨_, alookup_setKey_self _ _ _, ?_⟩
  simp [htr]

theorem foldl_addCandidate_approved_mono :
    ∀ (l : List RawOption) (groups : Snapshot) (k : String) (g : MarketGroup),
      alookup k groups = some g → g.is_approved = true →
      ∃ g2, alookup k (l.foldl addCandidate groups) = some g2 ∧
        g2.is_approved = true := by
  intro l
  induction l with
  | nil => intro groups k g h ha; exact ⟨g, h, ha⟩
  | cons q rest ih =>
    intro groups k g h ha
    obtain ⟨g1, h1, ha1⟩ := addCandidate_approved_mono groups q k g h ha
    exact ih (addCandidate groups q) k g1 h1 ha1

theorem foldl_addCandidate_tradable :
    ∀ (l : List RawOption) (groups : Snapshot) (q : RawOption) (k : String),
      q ∈ l → groupKeyOf q = some k → tradableOf q = true →
      ∃ g, alookup k (l.foldl addCandidate groups) = some g ∧
        g.is_approved = true := by
  intro l
  induction l with
  | nil => intro groups q k hq; exact absurd hq (List.not_mem_nil q)
  | cons q0 rest ih =>
    intro groups q k hq hkey htr
    rcases List.mem_cons.mp hq with hq | hq
    · subst hq
      obtain ⟨g1, h1, ha1⟩ := addCandidate_sets_approved groups q k hkey htr
      exact foldl_addCandidate_approved_mono rest (addCandidate groups q)
        k g1 h1 ha1
    · exact ih (addCandidate groups q0) q k hq hkey htr

theorem alookup_filter_approved (k : String) (g : MarketGroup) :
    ∀ l : Snapshot, alookup k l = some g → g.is_approved = true →
      alookup k (l.filter (fun kv => kv.2.is_approved)) = some g := by
  intro l
  induction l with
  | nil => intro h; simp [alookup] at h
  | cons hd rest ih =>
    obtain ⟨k2, v2⟩ := hd
    intro h ha
    by_cases hk : k2 = k
    · subst hk
      have hv : v2 = g := by simpa [alookup] using h
      subst hv
      simp [List.filter, ha, alookup]
    · have h2 : alookup k rest = some g := by simpa [alookup, hk] using h
      cases hv2 : v2.is_approved
      · simpa [List.filter, hv2] using ih h2 ha
      · simpa [List.filter, hv2, alookup, hk] using ih h2 ha

/-- C5: within one normalization pass (`build_live_snapshot`, watcher
lines 175-214; `build_current_matches_snapshot`, cron lines 157-196), a
group's `is_approved` never reverts once true (first conjunct: every
further processed record preserves it), and whenever some record of the
group is tradable the resulting group of the pass is present and
approved (second conjunct) — the universal quantification over the
candidate list covers every processing order of the group's options. -/
theorem C5_approval_monotonicity :
    (∀ (groups : Snapshot) (q : RawOption) (k : String) (g : MarketGroup),
      alookup k groups = some g → g.is_approved = true →
      ∃ g2, alookup k (addCandidate groups q) = some g2 ∧
        g2.is_approved = true) ∧
    (∀ (raw : List RawOption) (now : Int) (q : RawOption) (k : String),
      q ∈ raw → is_upcoming_match_option q now = true →
      groupKeyOf q = some k → tradableOf q = true →
      ∃ g, alookup k (build_live_snapshot raw now true) = some g ∧
        g.is_approved = true) := by
  refine ⟨addCandidate_approved_mono, ?_⟩
  intro raw now q k hq hpass hkey htr
  have hcand : q ∈ raw.filter (fun q => is_upcoming_match_option q now) :=
    List.mem_filter.mpr ⟨hq, hpass⟩
  obtain ⟨g, hg, ha⟩ := foldl_addCandidate_tradable
    (raw.filter (fun q => is_upcoming_match_option q now)) [] q k hcand hkey htr
  have hdef : build_live_snapshot raw now true =
      (buildGroups (raw.filter (fun q => is_upcoming_match_option q now))).filter
        (fun kv => kv.2.is_approved) := rfl
  rw [hdef]
  exact ⟨g, alookup_filter_approved k g _ hg ha, ha⟩

theorem C5_witness :
    (∃ g2, alookup ("Alpha vs Beta")
        (addCandidate [(("Alpha vs Beta"), gOld)] qGood) = some g2 ∧
      g2.is_approved = true) ∧
    (∃ g, alookup ("Alpha vs Beta") (build_live_snapshot [qGood] 5 true) =
        some g ∧ g.is_approved = true) :=
  ⟨C5_approval_monotonicity.1 [(("Alpha vs Beta"), gOld)] qGood
      ("Alpha vs Beta") gOld (by decide) (by decide),
   C5_approval_monotonicity.2 [qGood] 5 qGood ("Alpha vs Beta")
      (List.mem_singleton.mpr rfl) (by decide) (by decide) (by decide)⟩

/-! ## C8: validator field reconciliation for surviving keys -/

theorem reconcileSavedInfo_spec (s l : MarketGroup) :
    (reconcileSavedInfo s l).1.questionEndTime = l.questionEndTime ∧
    (reconcileSavedInfo s l).1.options = l.options ∧
    (reconcileSavedInfo s l).1.is_approved = l.is_approved ∧
    (reconcileSavedInfo s l).1.match_header = s.match_header ∧
    (reconcileSavedInfo s l).1.slug = s.slug ∧
    (reconcileSavedInfo s l).1.multi_question_id = s.multi_question_id ∧
    (reconcileSavedInfo s l).1.first_detected_at = s.first_detected_at ∧
    (s.questionEndTime = l.questionEndTime →
      (reconcileSavedInfo s l).1.questionEndTime_iso = s.questionEndTime_iso) ∧
    (s.questionEndTime ≠ l.questionEndTime →
      (reconcileSavedInfo s l).1.questionEndTime_iso = l.questionEndTime_iso) ∧
    ((reconcileSavedInfo s l).2 = true ↔
      ¬(s.questionEndTime = l.questionEndTime ∧ s.options = l.options ∧
        s.is_approved = l.is_approved)) := by
  by_cases h1 : s.questionEndTime = l.questionEndTime <;>
    by_cases h2 : s.options = l.options <;>
      by_cases h3 : s.is_approved = l.is_approved <;>
        simp [reconcileSavedInfo, h1, h2, h3]

theorem validateEntries_updated_sub (live : Snapshot) :
    ∀ (saved : Snapshot) (k : String),
      k ∈ (validateEntries live saved).2.2 → k ∈ akeys saved := by
  intro saved
  induction saved with
  | nil => intro k h; simp [validateEntries] at h
  | cons hd rest ih =>
    obtain ⟨k1, s1⟩ := hd
    intro k h
    have hcons : akeys ((k1, s1) :: rest) = k1 :: akeys rest := rfl
    rw [hcons]
    cases hl : alookup k1 live with
    | none =>
      simp only [validateEntries, hl] at h
      exact List.mem_cons_of_mem _ (ih k h)
    | some l1 =>
      simp only [validateEntries, hl] at h
      by_cases hc : (reconcileSavedInfo s1 l1).2 = true
      · rw [if_pos hc] at h
        rcases List.mem_cons.mp h with h | h
        · exact h ▸ List.mem_cons_self _ _
        · exact List.mem_cons_of_mem _ (ih k h)
      · rw [if_neg hc] at h
        exact List.mem_cons_of_mem _ (ih k h)

theorem validateEntries_survivor (live : Snapshot) :
    ∀ (saved : Snapshot) (k : String) (s l : MarketGroup),
      (akeys saved).Nodup →
      alookup k saved = some s → alookup k live = some l →
      alookup k (validateEntries live saved).1 =
          some (reconcileSavedInfo s l).1 ∧
        (k ∈ (validateEntries live saved).2.2 ↔
          (reconcileSavedInfo s l).2 = true) := by
  intro saved
  induction saved with
  | nil => intro k s l _ hs; simp [alookup] at hs
  | cons hd rest ih =>
    obtain ⟨k1, s1⟩ := hd
    intro k s l hnd hs hl
    have hndrest : (akeys rest).Nodup := (List.nodup_cons.mp hnd).2
    by_cases hk : k1 = k
    · subst hk
      have hs1 : s1 = s := by simpa [alookup] using hs
      subst hs1
      have hknotin : k1 ∉ akeys rest := (List.nodup_cons.mp hnd).1
      constructor
      · simp only [validateEntries, hl]
        simp [alookup]
      · simp only [validateEntries, hl]
        by_cases hc : (reconcileSavedInfo s1 l).2 = true
        · rw [if_pos hc]
          simp [hc]
        · rw [if_neg hc]
          exact iff_of_false
            (fun hmem => hknotin (validateEntries_updated_sub live rest k1 hmem))
            (fun h => hc h)
    · have hs2 : alookup k rest = some s := by simpa [alookup, hk] using hs
      obtain ⟨ihl, ihu⟩ := ih k s l hndrest hs2 hl
      cases hl1 : alookup k1 live with
      | none =>
        simp only [validateEntries, hl1]
        exact ⟨ihl, ihu⟩
      | some l1 =>
        simp only [validateEntries, hl1]
        refine ⟨by simpa [alookup, hk] using ihl, ?_⟩
        by_cases hc : (reconcileSavedInfo s1 l1).2 = true
        · rw [if_pos hc]
          rw [List.mem_cons]
          constructor
          · rintro (h | h)
            · exact absurd h.symm hk
            · exact ihu.mp h
          · intro h
            exact Or.inr (ihu.mpr h)
        · rw [if_neg hc]
          exact ihu

/-- C8: for every saved and fresh snapshot and every key present in
both, the periodic validator (`validate_snapshot`, watcher lines
229-253) leaves the surviving record with the fresh `end_time`,
`options` and `is_approved` (overwriting exactly the differing ones —
overwriting an equal value is unobservable), rewrites the display form
`questionEndTime_iso` exactly when `questionEndTime` differs, records
the key as updated iff one of the three tracked fields differs, and
leaves every other stored field — `first_detected_at`, `match_header`,
`slug`, `multi_question_id` — unchanged. -/
theorem C8_validator_field_reconciliation
    (saved live : Snapshot) (k : String) (s l : MarketGroup)
    (hnd : (akeys saved).Nodup)
    (hs : alookup k saved = some s) (hl : alookup k live = some l) :
    ∃ r, alookup k (validate_snapshot saved (Except.ok live)).1 = some r ∧
      r.questionEndTime = l.questionEndTime ∧
      r.options = l.options ∧
      r.is_approved = l.is_approved ∧
      r.match_header = s.match_header ∧
      r.slug = s.slug ∧
      r.multi_question_id = s.multi_question_id ∧
      r.first_detected_at = s.first_detected_at ∧
      (s.questionEndTime = l.questionEndTime →
        r.questionEndTime_iso = s.questionEndTime_iso) ∧
      (s.questionEndTime ≠ l.questionEndTime →
        r.questionEndTime_iso = l.questionEndTime_iso) ∧
      (k ∈ (validate_snapshot saved (Except.ok live)).2.updated ↔
        ¬(s.questionEndTime = l.questionEndTime ∧ s.options = l.options ∧
          s.is_approved = l.is_approved)) := by
  cases saved with
  | nil => simp [alookup] at hs
  | cons hd rest =>
    have hv : validate_snapshot (hd :: rest) (Except.ok live) =
        ((validateEntries live (hd :: rest)).1,
          { removed := (validateEntries live (hd :: rest)).2.1
            updated := (validateEntries live (hd :: rest)).2.2
            fetchError := none }) := rfl
    obtain ⟨hlook, hupd⟩ := validateEntries_survivor live (hd :: rest) k s l hnd hs hl
    obtain ⟨e1, e2, e3, e4, e5, e6, e7, e8, e9, e10⟩ := reconcileSavedInfo_spec s l
    refine ⟨(reconcileSavedInfo s l).1, ?_, e1, e2, e3, e4, e5, e6, e7, e8, e9, ?_⟩
    · rw [hv]
      exact hlook
    · rw [hv]
      exact hupd.trans e10

theorem C8_witness :
    ∃ r, alookup ("Alpha vs Beta")
        (validate_snapshot [(("Alpha vs Beta"), gOld)]
          (Except.ok [(("Alpha vs Beta"), gFresh)])).1 = some r ∧
      r.questionEndTime = gFresh.questionEndTime ∧
      r.options = gFresh.options ∧
      r.is_approved = gFresh.is_approved ∧
      r.match_header = gOld.match_header ∧
      r.slug = gOld.slug ∧
      r.multi_question_id = gOld.multi_question_id ∧
      r.first_detected_at = gOld.first_detected_at ∧
      (gOld.questionEndTime = gFresh.questionEndTime →
        r.questionEndTime_iso = gOld.questionEndTime_iso) ∧
      (gOld.questionEndTime ≠ gFresh.questionEndTime →
        r.questionEndTime_iso = gFresh.questionEndTime_iso) ∧
      (("Alpha vs Beta") ∈ (validate_snapshot [(("Alpha vs Beta"), gOld)]
          (Except.ok [(("Alpha vs Beta"), gFresh)])).2.updated ↔
        ¬(gOld.questionEndTime = gFresh.questionEndTime ∧
          gOld.options = gFresh.options ∧
          gOld.is_approved = gFresh.is_approved)) :=
  C8_validator_field_reconciliation [(("Alpha vs Beta"), gOld)]
    [(("Alpha vs Beta"), gFresh)] ("Alpha vs Beta") gOld gFresh
    (by simp [akeys]) (by decide) (by decide)

/-! ## C2: removal logging -/

/-- Number of occurrences of the key `k` in a key list. -/
def countKey (k : String) : List String → Nat
  | [] => 0
  | x :: rest => (if x = k then 1 else 0) + countKey k rest

/-- Number of removal entries carrying the key `k`. -/
def countEntryKey (k : String) : List (String × String) → Nat
  | [] => 0
  | e :: rest => (if e.1 = k then 1 else 0) + countEntryKey k rest

theorem countKey_insertSorted (k x : String) :
    ∀ l : List String, countKey k (insertSorted x l) =
      (if x = k then 1 else 0) + countKey k l := by
  intro l
  induction l with
  | nil => rfl
  | cons y rest ih =>
    by_cases hxy : x < y
    · simp [insertSorted, hxy, countKey]
    · simp [insertSorted, hxy, countKey, ih]
      ring

theorem countKey_sortKeys (k : String) :
    ∀ l : List String, countKey k (sortKeys l) = countKey k l := by
  intro l
  induction l with
  | nil => rfl
  | cons x rest ih =>
    show countKey k (insertSorted x (sortKeys rest)) = _
    rw [countKey_insertSorted, ih]
    rfl

theorem countKey_filter (k : String) (p : String → Bool) :
    ∀ l : List String, countKey k (l.filter p) =
      if p k = true then countKey k l else 0 := by
  intro l
  induction l with
  | nil => simp [countKey]
  | cons x rest ih =>
    by_cases hx : x = k
    · subst hx
      cases hp : p x
      · simp [List.filter, hp, countKey, ih]
      · simp [List.filter, hp, countKey, ih]
    · cases hp : p x
      · simp [List.filter, hp, countKey, hx, ih]
      · simp [List.filter, hp, countKey, hx, ih]

theorem countKey_eq_zero_of_not_mem (k : String) :
    ∀ l : List String, k ∉ l → countKey k l = 0 := by
  intro l
  induction l with
  | nil => intro _; rfl
  | cons x rest ih =>
    intro h
    have hx : x ≠ k := fun he => h (he ▸ List.mem_cons_self x rest)
    simp [countKey, hx]
    exact ih (fun h2 => h (List.mem_cons_of_mem x h2))

theorem countKey_eq_one_of_nodup (k : String) :
    ∀ l : List String, l.Nodup → k ∈ l → countKey k l = 1 := by
  intro l
  induction l with
  | nil => intro _ h; exact absurd h (List.not_mem_nil k)
  | cons x rest ih =>
    intro hnd hmem
    obtain ⟨hx, hrest⟩ := List.nodup_cons.mp hnd
    by_cases hxk : x = k
    · subst hxk
      have hz : countKey x rest = 0 := countKey_eq_zero_of_not_mem x rest hx
      simp [countKey, hz]
    · rcases List.mem_cons.mp hmem with h | h
      · exact absurd h.symm hxk
      · simp [countKey, hxk, ih hrest h]

theorem mem_of_countKey_pos (k : String) :
    ∀ l : List String, 0 < countKey k l → k ∈ l := by
  intro l
  induction l with
  | nil => intro h; simp [countKey] at h
  | cons x rest ih =>
    intro h
    by_cases hx : x = k
    · exact hx ▸ List.mem_cons_self x rest
    · simp [countKey, hx] at h
      exact List.mem_cons_of_mem x (ih h)

theorem mem_akeys_of_alookup (k : String) (g : MarketGroup) (l : Snapshot)
    (h : alookup k l = some g) : k ∈ akeys l :=
  List.mem_map_of_mem Prod.fst (alookup_mem k g l h)

/-- The key of every key of `removedKeys` occurs exactly once when the
old snapshot's keys are unique and the key was dropped. -/
theorem countKey_removedKeys (saved current : Snapshot) (k : String)
    (g : MarketGroup) (hnd : (akeys saved).Nodup)
    (hs : alookup k saved = some g) (hc : alookup k current = none) :
    countKey k (removedKeys saved current) = 1 := by
  unfold removedKeys
  rw [countKey_sortKeys, countKey_filter]
  rw [if_pos (by simp [hc])]
  exact countKey_eq_one_of_nodup k (akeys saved) hnd
    (mem_akeys_of_alookup k g saved hs)

theorem validateEntries_removed_sub (live : Snapshot) :
    ∀ (saved : Snapshot) (e : String × String),
      e ∈ (validateEntries live saved).2.1 → e.1 ∈ akeys saved := by
  intro saved
  induction saved with
  | nil => intro e h; simp [validateEntries] at h
  | cons hd rest ih =>
    obtain ⟨k1, s1⟩ := hd
    intro e h
    have hcons : akeys ((k1, s1) :: rest) = k1 :: akeys rest := rfl
    rw [hcons]
    cases hl : alookup k1 live with
    | none =>
      simp only [validateEntries, hl] at h
      rcases List.mem_cons.mp h with h | h
      · rw [h]
        exact List.mem_cons_self _ _
      · exact List.mem_cons_of_mem _ (ih e h)
    | some l1 =>
      simp only [validateEntries, hl] at h
      exact List.mem_cons_of_mem _ (ih e h)

theorem countEntryKey_eq_zero (k : String) :
    ∀ l : List (String × String), (∀ e ∈ l, e.1 ≠ k) →
      countEntryKey k l = 0 := by
  intro l
  induction l with
  | nil => intro _; rfl
  | cons e rest ih =>
    intro h
    simp [countEntryKey, h e (List.mem_cons_self e rest)]
    exact ih (fun e2 h2 => h e2 (List.mem_cons_of_mem e h2))

theorem validateEntries_removed_entry (live : Snapshot) :
    ∀ (saved : Snapshot) (k : String) (g : MarketGroup),
      (akeys saved).Nodup →
      alookup k saved = some g → alookup k live = none →
      countEntryKey k (validateEntries live saved).2.1 = 1 ∧
        (k, ("no longer approved/present")) ∈
          (validateEntries live saved).2.1 := by
  intro saved
  induction saved with
  | nil => intro k g _ hs; simp [alookup] at hs
  | cons hd rest ih =>
    obtain ⟨k1, s1⟩ := hd
    intro k g hnd hs hl
    have hndrest : (akeys rest).Nodup := (List.nodup_cons.mp hnd).2
    by_cases hk : k1 = k
    · subst hk
      have hknotin : k1 ∉ akeys rest := (List.nodup_cons.mp hnd).1
      have hz : countEntryKey k1 (validateEntries live rest).2.1 = 0 :=
        countEntryKey_eq_zero k1 _ (fun e he heq =>
          hknotin (heq ▸ validateEntries_removed_sub live rest e he))
      simp only [validateEntries, hl]
      constructor
      · simp [countEntryKey, hz]
      · exact List.mem_cons_self _ _
    · have hs2 : alookup k rest = some g := by simpa [alookup, hk] using hs
      obtain ⟨ihc, ihm⟩ := ih k g hndrest hs2 hl
      cases hl1 : alookup k1 live with
      | none =>
        simp only [validateEntries, hl1]
        refine ⟨?_, List.mem_cons_of_mem _ ihm⟩
        simp [countEntryKey, hk, ihc]
      | some l1 =>
        simp only [validateEntries, hl1]
        exact ⟨ihc, ihm⟩

/-- C2 counterexample: in the watcher's periodic validator
(`validate_snapshot`, watcher lines 227-251), the removal-log entry of a
removed key pairs the key with the constant reason string
`"no longer approved/present"` — two saved snapshots whose stored
records for the removed key differ produce identical removal entries,
so the entry cannot carry the old group's full field set, and the
written log line does not contain the record's JSON dump. -/
theorem C2_counterexample :
    (validate_snapshot [(("X"), gOld)] (Except.ok [])).2.removed =
        [(("X"), ("no longer approved/present"))] ∧
    (validate_snapshot [(("X"), gNoStamp)] (Except.ok [])).2.removed =
        [(("X"), ("no longer approved/present"))] ∧
    gOld ≠ gNoStamp ∧
    watcherRemovedLogLines ("2024-06-01 09:00:00")
        ((validate_snapshot [(("X"), gOld)] (Except.ok [])).2.removed) =
      [("2024-06-01 09:00:00 | REMOVED | X | reason=no longer approved/present")] ∧
    strContainsSub
        ("2024-06-01 09:00:00 | REMOVED | X | reason=no longer approved/present")
        (dumpGroup gOld) = false := by
  refine ⟨by decide, by decide, by decide, by decide, by decide⟩

/-- C2 (amended): in the single-run cron (`run_once`, cron lines
258-264) every key present in the old snapshot but absent from the new
one yields exactly one removal-log line, pairing the key with the old
group's full field set (its JSON dump); in the watcher's periodic
validator (watcher lines 227-251) every such key instead yields exactly
one removal entry pairing the key with the fixed reason string
`"no longer approved/present"`, not the stored record. -/
theorem C2_removal_log_amended :
    (∀ (saved current : Snapshot) (k : String) (g : MarketGroup),
      (akeys saved).Nodup →
      alookup k saved = some g → alookup k current = none →
      countKey k (removedKeys saved current) = 1 ∧
      cronRemovedLine saved k =
        "Removed: " ++ k ++ " data=" ++ dumpGroup g ∧
      cronRemovedLine saved k ∈ cronRemovedLogLines saved current) ∧
    (∀ (saved live : Snapshot) (k : String) (g : MarketGroup),
      (akeys saved).Nodup →
      alookup k saved = some g → alookup k live = none →
      countEntryKey k
          ((validate_snapshot saved (Except.ok live)).2.removed) = 1 ∧
        (k, ("no longer approved/present")) ∈
          (validate_snapshot saved (Except.ok live)).2.removed) := by
  constructor
  · intro saved current k g hnd hs hc
    have hcount := countKey_removedKeys saved current k g hnd hs hc
    refine ⟨hcount, ?_, ?_⟩
    · unfold cronRemovedLine
      rw [hs]
      rfl
    · exact List.mem_map_of_mem (cronRemovedLine saved)
        (mem_of_countKey_pos k _ (hcount ▸ Nat.one_pos))
  · intro saved live k g hnd hs hl
    cases saved with
    | nil => simp [alookup] at hs
    | cons hd rest =>
      have hv : (validate_snapshot (hd :: rest) (Except.ok live)).2.removed =
          (validateEntries live (hd :: rest)).2.1 := rfl
      rw [hv]
      exact validateEntries_removed_entry live (hd :: rest) k g hnd hs hl

theorem C2_witness :
    (countKey ("Alpha vs Beta")
        (removedKeys [(("Alpha vs Beta"), gOld)] []) = 1 ∧
      cronRemovedLine [(("Alpha vs Beta"), gOld)] ("Alpha vs Beta") =
        "Removed: " ++ "Alpha vs Beta" ++ " data=" ++ dumpGroup gOld ∧
      cronRemovedLine [(("Alpha vs Beta"), gOld)] ("Alpha vs Beta") ∈
        cronRemovedLogLines [(("Alpha vs Beta"), gOld)] []) ∧
    (countEntryKey ("Alpha vs Beta")
        ((validate_snapshot [(("Alpha vs Beta"), gOld)]
          (Except.ok [])).2.removed) = 1 ∧
      (("Alpha vs Beta"), ("no longer approved/present")) ∈
        (validate_snapshot [(("Alpha vs Beta"), gOld)]
          (Except.ok [])).2.removed) :=
  ⟨C2_removal_log_amended.1 [(("Alpha vs Beta"), gOld)] []
      ("Alpha vs Beta") gOld (by simp [akeys]) (by decide) (by decide),
   C2_removal_log_amended.2 [(("Alpha vs Beta"), gOld)] []
      ("Alpha vs Beta") gOld (by simp [akeys]) (by decide) (by decide)⟩

/-! ## C7: slugify agrees with the spec's description

Both pipelines are reduced to the common normal form
`rdropWhile (· == '-') (squashAux (non-alnum) '-' true (lowered list))`:
"keep alphanumeric characters, turn each maximal non-alphanumeric run
into one hyphen, drop the leading and trailing hyphen". -/

theorem alnum_beq_non_alnum_false (c d : Char) (h : isLowerAlnum c = true)
    (hd : isLowerAlnum d = false) : (c == d) = false := by
  cases hb : c == d
  · rfl
  · have he : c = d := eq_of_beq hb
    subst he
    rw [h] at hd
    exact absurd hd (by simp)

theorem alnum_not_pyspace (c : Char) (h : isLowerAlnum c = true) :
    isPySpace c = false := by
  cases hp : isPySpace c
  · rfl
  · exfalso
    simp [isPySpace] at hp
    rcases hp with ((((rfl | rfl) | rfl) | rfl) | rfl) | rfl <;>
      exact absurd h (by decide)

theorem rdropWhile_cons (p : Char → Bool) (c : Char) (l : List Char) :
    rdropWhile p (c :: l) =
      if rdropWhile p l = [] then (if p c then [] else [c])
      else c :: rdropWhile p l := by
  unfold rdropWhile
  rw [List.reverse_cons, List.dropWhile_append]
  by_cases h : List.dropWhile p l.reverse = []
  · rw [if_pos (by rw [h]; rfl), if_pos (by rw [h]; rfl)]
    cases hp : p c <;> simp [List.dropWhile, hp]
  · rw [if_neg (fun he => h (List.isEmpty_iff.mp he)),
      if_neg (fun he => h (List.reverse_eq_nil_iff.mp he))]
    rw [List.reverse_append]
    rfl

theorem rdropWhile_cons_congr (p : Char → Bool) (c : Char) (A B : List Char)
    (h : rdropWhile p A = rdropWhile p B) :
    rdropWhile p (c :: A) = rdropWhile p (c :: B) := by
  rw [rdropWhile_cons, rdropWhile_cons, h]

theorem rdropWhile_decomp (p : Char → Bool) (l : List Char) :
    ∃ u : List Char, (∀ c ∈ u, p c = true) ∧ l = rdropWhile p l ++ u := by
  refine ⟨(l.reverse.takeWhile p).reverse, ?_, ?_⟩
  · intro c hc
    rw [List.mem_reverse] at hc
    exact List.mem_takeWhile_imp hc
  · unfold rdropWhile
    rw [← List.reverse_append, List.takeWhile_append_dropWhile,
      List.reverse_reverse]

theorem squash_spec_map : ∀ (l : List Char) (b : Bool),
    squashAux (fun c => c == '-') '-' b
        (l.map (fun c => if isLowerAlnum c then c else '-')) =
      squashAux (fun c => !(isLowerAlnum c)) '-' b l := by
  intro l
  induction l with
  | nil => intro b; rfl
  | cons c rest ih =>
    intro b
    cases ha : isLowerAlnum c
    · cases b <;> simp [squashAux, ha, ih true]
    · have hd : (c == '-') = false :=
        alnum_beq_non_alnum_false c '-' ha (by decide)
      cases b <;> simp [squashAux, ha, hd, ih false]

theorem map_replC_k3 (l : List Char) :
    (l.map (fun c => if c == ':' then ' ' else c)).map
        (fun c => if isLowerAlnum c || isPySpace c then c else ' ') =
      l.map (fun c => if isLowerAlnum c then c
                      else if isPySpace c then c else ' ') := by
  induction l with
  | nil => rfl
  | cons c rest ih =>
    simp only [List.map_cons, ih]
    congr 1
    by_cases ha : isLowerAlnum c = true
    · have hc : (c == ':') = false :=
        alnum_beq_non_alnum_false c ':' ha (by decide)
      simp [hc, ha]
    · have ha2 : isLowerAlnum c = false := Bool.eq_false_iff.mpr ha
      cases hcolon : c == ':'
      · cases hp : isPySpace c <;> simp [ha2, hcolon, hp]
      · have he : c = ':' := eq_of_beq hcolon
        subst he
        decide

theorem squash_code_map : ∀ (l : List Char) (b : Bool),
    squashAux (fun c => isPySpace c || (c == '-')) '-' b
        (l.map (fun c => if isLowerAlnum c then c
                         else if isPySpace c then c else ' ')) =
      squashAux (fun c => !(isLowerAlnum c)) '-' b l := by
  intro l
  induction l with
  | nil => intro b; rfl
  | cons c rest ih =>
    intro b
    have hsp : isPySpace ' ' = true := by decide
    cases ha : isLowerAlnum c
    · cases hp : isPySpace c
      · cases b <;> simp [squashAux, ha, hp, hsp, ih true]
      · cases b <;> simp [squashAux, ha, hp, ih true]
    · have hp : isPySpace c = false := alnum_not_pyspace c ha
      have hd : (c == '-') = false :=
        alnum_beq_non_alnum_false c '-' ha (by decide)
      cases b <;> simp [squashAux, ha, hp, hd, ih false]

theorem squash_squash : ∀ l : List Char,
    (∀ bi : Bool, squashAux (fun c => c == '-') '-' true
        (squashAux isPySpace '-' bi l) =
      squashAux (fun c => isPySpace c || (c == '-')) '-' true l) ∧
    (squashAux (fun c => c == '-') '-' false
        (squashAux isPySpace '-' false l) =
      squashAux (fun c => isPySpace c || (c == '-')) '-' false l) := by
  intro l
  induction l with
  | nil => exact ⟨fun _ => rfl, rfl⟩
  | cons c rest ih =>
    obtain ⟨ihA, ihB⟩ := ih
    cases hS : isPySpace c
    · cases hD : c == '-'
      · refine ⟨fun bi => ?_, ?_⟩
        · cases bi <;> simp [squashAux, hS, hD, ihB]
        · simp [squashAux, hS, hD, ihB]
      · refine ⟨fun bi => ?_, ?_⟩
        · cases bi <;> simp [squashAux, hS, hD, ihA false]
        · simp [squashAux, hS, hD, ihA false]
    · refine ⟨fun bi => ?_, ?_⟩
      · cases bi <;> simp [squashAux, hS, ihA true]
      · simp [squashAux, hS, ihA true]

theorem dropWhile_squash (P : Char → Bool)
    (hP : ∀ c : Char, P c = false → (c == '-') = false) :
    ∀ l : List Char,
      List.dropWhile (fun c => c == '-') (squashAux P '-' false l) =
          squashAux P '-' true l ∧
        List.dropWhile (fun c => c == '-') (squashAux P '-' true l) =
          squashAux P '-' true l := by
  intro l
  induction l with
  | nil => exact ⟨rfl, rfl⟩
  | cons c rest ih =>
    obtain ⟨ih1, ih2⟩ := ih
    cases hc : P c
    · have hd := hP c hc
      constructor <;> simp [squashAux, hc, List.dropWhile, hd]
    · constructor <;> simp [squashAux, hc, List.dropWhile, ih2]

theorem squash_dropWhile_sub (S P : Char → Bool)
    (hsub : ∀ c, S c = true → P c = true) :
    ∀ l : List Char,
      squashAux P '-' true (List.dropWhile S l) =
        squashAux P '-' true l := by
  intro l
  induction l with
  | nil => rfl
  | cons c rest ih =>
    cases hS : S c
    · simp [List.dropWhile, hS]
    · simp [List.dropWhile, hS, squashAux, hsub c hS, ih]

theorem squash_all_true (P : Char → Bool) :
    ∀ u : List Char, (∀ c ∈ u, P c = true) →
      squashAux P '-' true u = [] := by
  intro u
  induction u with
  | nil => intro _; rfl
  | cons c rest ih =>
    intro h
    simp [squashAux, h c (List.mem_cons_self c rest)]
    exact ih (fun c2 h2 => h c2 (List.mem_cons_of_mem c h2))

theorem rdrop_squash_append (P : Char → Bool) :
    ∀ (x u : List Char), (∀ c ∈ u, P c = true) →
      ∀ b : Bool,
        rdropWhile (fun c => c == '-') (squashAux P '-' b (x ++ u)) =
          rdropWhile (fun c => c == '-') (squashAux P '-' b x) := by
  intro x
  induction x with
  | nil =>
    intro u hu b
    cases b
    · cases u with
      | nil => rfl
      | cons c u2 =>
        have h1 : squashAux P '-' false (c :: u2) = '-' :: squashAux P '-' true u2 := by
          simp [squashAux, hu c (List.mem_cons_self c u2)]
        rw [List.nil_append, h1,
          squash_all_true P u2 (fun c2 h2 => hu c2 (List.mem_cons_of_mem c h2))]
        rfl
    · rw [List.nil_append, squash_all_true P u hu]
      rfl
  | cons c x2 ih =>
    intro u hu b
    cases hc : P c
    · have h1 : squashAux P '-' b ((c :: x2) ++ u) =
          c :: squashAux P '-' false (x2 ++ u) := by
        cases b <;> simp [squashAux, hc]
      have h2 : squashAux P '-' b (c :: x2) =
          c :: squashAux P '-' false x2 := by
        cases b <;> simp [squashAux, hc]
      rw [h1, h2]
      exact rdropWhile_cons_congr _ c _ _ (ih u hu false)
    · cases b
      · have h1 : squashAux P '-' false ((c :: x2) ++ u) =
            '-' :: squashAux P '-' true (x2 ++ u) := by
          simp [squashAux, hc]
        have h2 : squashAux P '-' false (c :: x2) =
            '-' :: squashAux P '-' true x2 := by
          simp [squashAux, hc]
        rw [h1, h2]
        exact rdropWhile_cons_congr _ '-' _ _ (ih u hu true)
      · have h1 : squashAux P '-' true ((c :: x2) ++ u) =
            squashAux P '-' true (x2 ++ u) := by
          simp [squashAux, hc]
        have h2 : squashAux P '-' true (c :: x2) =
            squashAux P '-' true x2 := by
          simp [squashAux, hc]
        rw [h1, h2]
        exact ih u hu true

theorem pyspace_not_alnum (c : Char) (h : isPySpace c = true) :
    isLowerAlnum c = false := by
  cases ha : isLowerAlnum c
  · rfl
  · rw [alnum_not_pyspace c ha] at h
    exact absurd h (by simp)

theorem non_alnum_pred_dash (c : Char) (h : (!(isLowerAlnum c)) = false) :
    (c == '-') = false := by
  have ha : isLowerAlnum c = true := by simpa using h
  exact alnum_beq_non_alnum_false c '-' ha (by decide)

/-- Both slug pipelines, applied to the lowered character list, agree:
each equals "squash every non-alphanumeric run to one hyphen, trim". -/
theorem slug_pipelines_agree (l0 : List Char) :
    stripBoth (fun c => c == '-')
        (squashAux (fun c => c == '-') '-' false
          (squashAux isPySpace '-' false
            (((stripBoth isPySpace l0).map
                (fun c => if c == ':' then ' ' else c)).map
              (fun c => if isLowerAlnum c || isPySpace c then c else ' ')))) =
      stripBoth (fun c => c == '-')
        (squashAux (fun c => c == '-') '-' false
          (l0.map (fun c => if isLowerAlnum c then c else '-'))) := by
  have hspec : stripBoth (fun c => c == '-')
      (squashAux (fun c => c == '-') '-' false
        (l0.map (fun c => if isLowerAlnum c then c else '-'))) =
      rdropWhile (fun c => c == '-')
        (squashAux (fun c => !(isLowerAlnum c)) '-' true l0) := by
    unfold stripBoth
    rw [squash_spec_map l0 false,
      (dropWhile_squash _ non_alnum_pred_dash l0).1]
  rw [hspec]
  rw [map_replC_k3]
  show stripBoth (fun c => c == '-')
      (squashAux (fun c => c == '-') '-' false
        (squashAux isPySpace '-' false
          ((stripBoth isPySpace l0).map
            (fun c => if isLowerAlnum c then c
                      else if isPySpace c then c else ' ')))) = _
  unfold stripBoth
  rw [(squash_squash _).2, squash_code_map _ false,
    (dropWhile_squash _ non_alnum_pred_dash _).1]
  -- the remaining difference is the early whitespace strip
  obtain ⟨u, hu, hz⟩ :=
    rdropWhile_decomp isPySpace (List.dropWhile isPySpace l0)
  have huQ : ∀ c ∈ u, (!(isLowerAlnum c)) = true := by
    intro c hc
    rw [pyspace_not_alnum c (hu c hc)]
    rfl
  have happ := rdrop_squash_append (fun c => !(isLowerAlnum c))
    (rdropWhile isPySpace (List.dropWhile isPySpace l0)) u huQ true
  rw [← hz] at happ
  rw [happ.symm]
  rw [squash_dropWhile_sub isPySpace (fun c => !(isLowerAlnum c))
    (fun c hc => by
      show (!(isLowerAlnum c)) = true
      rw [pyspace_not_alnum c hc]
      rfl) l0]

/-- C7: for every header string, the slug the code derives (`slugify`,
watcher lines 72-78; `slugify_header`, cron lines 57-63) equals the
spec's description (`slugSpecDescription`): lowercase the string,
replace every character other than a lowercase alphanumeric by a
hyphen, collapse hyphen runs and trim leading/trailing hyphens; in
particular `"Team A: Team B"` yields `"team-a-team-b"`. -/
theorem C7_slugify_matches_spec :
    (∀ s : String, slugify s = slugSpecDescription s) ∧
    slugify ("Team A: Team B") = "team-a-team-b" := by
  constructor
  · intro s
    exact congrArg String.mk (slug_pipelines_agree (s.data.map Char.toLower))
  · decide

end Fliqr
